import Mathlib

/-!
Shallow embedding of the flashcard spaced-repetition module
(src/PS1/src/algorithm.ts) and proofs about its six public operations.

Modelling conventions:
- A JS `Flashcard` object is identity-bearing; we give each card an `id`
  field so that two cards with equal text stay distinct, and containers
  compare cards by full structural equality (which includes `id`).
- A JS `Map<number, Set<Flashcard>>` is modelled as an association list
  `List (Nat × Finset Flashcard)` kept in insertion order; a real `Map`
  has no duplicate keys, which theorems assume via `Nodup` hypotheses
  where the source relies on it.
- A JS `Array<Set<Flashcard>>` is `List (Finset Flashcard)`.
- `String.prototype.repeat` throws a RangeError on a negative count, so
  the star-mask builder returns an `Option`, `none` modelling the throw;
  `getHint` is therefore `Option`-valued.
- The float expression `(stageCards / totalCards) * 100` is modelled
  exactly over `ℚ`.
-/

namespace FlashcardSystem

/-- A flashcard record: `front`, `back`, optional `hint` text and tags.
The `id` field models JS object identity. -/
structure Flashcard where
  id : Nat
  front : String
  back : String
  hint : String
  tags : List String
deriving DecidableEq

/-- The three review outcomes. -/
inductive AnswerDifficulty where
  | Easy
  | Hard
  | Wrong
deriving DecidableEq

/-- Sparse bucket assignment: `Map<number, Set<Flashcard>>` as an
association list in insertion order. -/
abbrev BucketMap := List (Nat × Finset Flashcard)

/-- The list of bucket numbers present in a sparse assignment. -/
def bucketKeys (m : BucketMap) : List Nat := m.map Prod.fst

/-- `Math.max(...Array.from(buckets.keys()), 0)` from `toBucketSets`. -/
def maxBucketNumber (m : BucketMap) : Nat := (bucketKeys m).foldr max 0

/-- `toBucketSets`: convert a sparse bucket map to a dense array.
Empty map gives an empty array; otherwise an array of length
`maxBucketNumber + 1` is filled with empty sets and then each entry of
the map overwrites the slot at its bucket number with a copy of its set. -/
def toBucketSets (buckets : BucketMap) : List (Finset Flashcard) :=
  if buckets.length = 0 then []
  else
    (buckets.foldl (fun arr kv => arr.set kv.1 kv.2)
      (List.replicate (maxBucketNumber buckets + 1) (∅ : Finset Flashcard)))

/-- The indexed loop body of `practice`: starting at index `i`, walk the
remaining buckets and union into `acc` every bucket that is non-empty and
whose index satisfies `day % 2 ^ index == 0`. -/
def practiceAux (day : Nat) : Nat → List (Finset Flashcard) → Finset Flashcard → Finset Flashcard
  | _, [], acc => acc
  | i, b :: rest, acc =>
      practiceAux day (i + 1) rest
        (if 0 < b.card ∧ day % 2 ^ i = 0 then acc ∪ b else acc)

/-- `practice`: the set of cards due on `day`, over a dense bucket array. -/
def practice (buckets : List (Finset Flashcard)) (day : Nat) : Finset Flashcard :=
  practiceAux day 0 buckets ∅

/-- One step of the `update` scan that finds the bucket containing the
card: the last bucket seen that contains the card wins. -/
def sourceStep (card : Flashcard) (cur : Int) (kv : Nat × Finset Flashcard) : Int :=
  if card ∈ kv.2 then (kv.1 : Int) else cur

/-- `currentBucketNum` of `update`: `-1` as sentinel, overwritten by the
bucket number of each bucket found to contain the card. -/
def sourceBucketNum (buckets : BucketMap) (card : Flashcard) : Int :=
  buckets.foldl (sourceStep card) (-1)

/-- The destination-bucket arithmetic of `update`:
Easy gives `min(current + 2, 7)`, Hard gives `min(current + 1, 7)`,
Wrong resets to `0`. Computed over `Int` because the sentinel is `-1`. -/
def targetBucketNum (difficulty : AnswerDifficulty) (current : Int) : Int :=
  match difficulty with
  | .Easy => min (current + 2) 7
  | .Hard => min (current + 1) 7
  | .Wrong => 0

/-- The copy-and-delete loop of `update`: every bucket is copied, and the
card is deleted from each copied bucket that contains it. -/
def removeCard (buckets : BucketMap) (card : Flashcard) : BucketMap :=
  buckets.map (fun kv => if card ∈ kv.2 then (kv.1, kv.2.erase card) else kv)

/-- The `if (!newBuckets.has(targetBucket))` step of `update`: append an
empty set under key `k` unless the key already exists (a js `Map` appends
new keys at the end of its insertion order). -/
def ensureBucket (buckets : BucketMap) (k : Nat) : BucketMap :=
  if (bucketKeys buckets).contains k then buckets else buckets ++ [(k, ∅)]

/-- The `newBuckets.get(targetBucket)!.add(card)` step of `update`. -/
def addToBucket (buckets : BucketMap) (k : Nat) (card : Flashcard) : BucketMap :=
  buckets.map (fun kv => if kv.1 = k then (kv.1, insert card kv.2) else kv)

/-- `update`: move the card to the bucket determined by the answer
difficulty, returning a fresh sparse assignment. -/
def update (buckets : BucketMap) (card : Flashcard)
    (difficulty : AnswerDifficulty) : BucketMap :=
  let tgt : Nat := (targetBucketNum difficulty (sourceBucketNum buckets card)).toNat
  addToBucket (ensureBucket (removeCard buckets card) tgt) tgt card

/-- The card sits in bucket number `k` of the sparse assignment. -/
def inBucket (m : BucketMap) (card : Flashcard) (k : Nat) : Prop :=
  ∃ kv ∈ m, kv.1 = k ∧ card ∈ kv.2

/-- Model of `'*'.repeat(count)`: a string of `count` stars, or `none`
when `count` is negative (JS throws a RangeError there). -/
def starMask (count : Int) : Option String :=
  if count < 0 then none else some (String.mk (List.replicate count.toNat '*'))

/-- Model of `front.substring(0, n)`: the first `n` characters. -/
def substrPrefix (s : String) (n : Nat) : String := String.mk (s.data.take n)

/-- `getHint`: return a usable stored hint verbatim; otherwise reveal a
prefix of the front text (1 character when its length is at most 3, else
3 characters) and mask the rest with stars. `none` models the RangeError
thrown by `'*'.repeat` on a negative count. -/
def getHint (card : Flashcard) : Option String :=
  if card.hint ≠ "" ∧ 0 < card.hint.trim.length then
    some card.hint
  else if card.front.length ≤ 3 then
    (starMask ((card.front.length : Int) - 1)).map
      (fun mask => substrPrefix card.front 1 ++ mask)
  else
    (starMask ((card.front.length : Int) - 3)).map
      (fun mask => substrPrefix card.front 3 ++ mask)

/-- One row of the progress report. -/
structure StageProgress where
  stage : String
  cardCount : Nat
  percentage : ℚ
deriving DecidableEq

/-- The progress report returned by `computeProgress`. -/
structure ProgressData where
  totalCards : Nat
  stageBreakdown : List StageProgress
deriving DecidableEq

/-- The three fixed stages of `computeProgress`: name, minBucket, maxBucket. -/
def stageDefs : List (String × Nat × Nat) :=
  [("Beginner", 0, 1), ("Intermediate", 2, 4), ("Advanced", 5, 7)]

/-- The per-stage counting loop of `computeProgress`: total size of the
buckets whose number lies in `[lo, hi]`. -/
def countInRange (buckets : BucketMap) (lo hi : Nat) : Nat :=
  buckets.foldl (fun t kv => if lo ≤ kv.1 ∧ kv.1 ≤ hi then t + kv.2.card else t) 0

/-- `computeProgress`: total card count plus a three-stage breakdown with
percentages, guarded against division by zero. The `history` argument is
accepted but never read, exactly as in the source. -/
def computeProgress (buckets : BucketMap)
    (_history : List (Flashcard × List AnswerDifficulty)) : ProgressData :=
  let totalCards := buckets.foldl (fun t kv => t + kv.2.card) 0
  { totalCards := totalCards
    stageBreakdown :=
      stageDefs.map (fun sd =>
        let stageCards := countInRange buckets sd.2.1 sd.2.2
        { stage := sd.1
          cardCount := stageCards
          percentage :=
            if 0 < totalCards then
              ((stageCards : ℚ) / (totalCards : ℚ)) * 100
            else 0 }) }

/-- Reading a dense array back as a sparse map: one entry per index, in
index order, as `new Map(arr.entries())` would produce. -/
def denseToSparse (l : List (Finset Flashcard)) : BucketMap := l.enum

/-- Concrete card with front `"Hi"` and no stored hint. -/
def cardHi : Flashcard := ⟨1, "Hi", "Hello", "", []⟩

/-- Concrete card with front `"Python Programming"` and no stored hint. -/
def cardPython : Flashcard := ⟨2, "Python Programming", "A coding language", "", []⟩

/-- Concrete card whose front text and hint are both empty. -/
def cardBlank : Flashcard := ⟨3, "", "", "", []⟩

/-- A second card with empty front text and empty hint, distinct from
`cardBlank` by identity and back text. -/
def cardBlankTwo : Flashcard := ⟨6, "", "answer", "", []⟩

/-- Concrete card used in witnesses. -/
def cardQ1 : Flashcard := ⟨4, "Q1", "A1", "", []⟩

/-- Concrete card used in witnesses. -/
def cardQ2 : Flashcard := ⟨5, "Q2", "A2", "", []⟩

/-! ### Lemmas and claim theorems -/

lemma front_length_pos (card : Flashcard) (hfront : card.front ≠ "") :
    0 < card.front.length := by
  have hdata : card.front.data ≠ [] := fun hnil => hfront (String.ext (by simp [hnil]))
  exact List.length_pos.mpr hdata

/-- C7 (amended): for a flashcard whose front text is non-empty, `getHint`
returns the stored hint verbatim when it is non-empty and not
whitespace-only; otherwise it returns `some` synthesized hint consisting
of a prefix of the front (1 character when the front length is at most 3,
else 3 characters) followed by one star per remaining character, and the
length of the result equals the length of the front text. -/
theorem getHint_spec (card : Flashcard) (hfront : card.front ≠ "") :
    (card.hint ≠ "" ∧ 0 < card.hint.trim.length → getHint card = some card.hint) ∧
    (¬(card.hint ≠ "" ∧ 0 < card.hint.trim.length) →
      ∃ s, getHint card = some s ∧
        s.data = card.front.data.take (if card.front.length ≤ 3 then 1 else 3) ++
          List.replicate
            (card.front.length - (if card.front.length ≤ 3 then 1 else 3)) '*' ∧
        s.length = card.front.length) := by
  have hpos : 0 < card.front.length := front_length_pos card hfront
  constructor
  · intro h
    simp only [getHint, if_pos h]
  · intro h
    have hfl : card.front.length = card.front.data.length := rfl
    by_cases hlen3 : card.front.length ≤ 3
    · refine ⟨substrPrefix card.front 1 ++
        String.mk (List.replicate (card.front.length - 1) '*'), ?_, ?_, ?_⟩
      · have hnn : ¬((card.front.length : Int) - 1 < 0) := by omega
        have htn : ((card.front.length : Int) - 1).toNat = card.front.length - 1 := by
          omega
        simp only [getHint, if_neg h, if_pos hlen3, starMask, if_neg hnn, htn]
        rfl
      · simp only [String.data_append, substrPrefix, if_pos hlen3]
      · have h1 : (substrPrefix card.front 1).length = min 1 card.front.data.length := by
          show (card.front.data.take 1).length = _
          exact List.length_take 1 card.front.data
        have h2 : (String.mk (List.replicate (card.front.length - 1) '*')).length =
            card.front.length - 1 := by
          show (List.replicate (card.front.length - 1) '*').length = _
          exact List.length_replicate ..
        rw [String.length_append, h1, h2]
        omega
    · refine ⟨substrPrefix card.front 3 ++
        String.mk (List.replicate (card.front.length - 3) '*'), ?_, ?_, ?_⟩
      · have hnn : ¬((card.front.length : Int) - 3 < 0) := by omega
        have htn : ((card.front.length : Int) - 3).toNat = card.front.length - 3 := by
          omega
        simp only [getHint, if_neg h, if_neg hlen3, starMask, if_neg hnn, htn]
        rfl
      · simp only [String.data_append, substrPrefix, if_neg hlen3]
      · have h1 : (substrPrefix card.front 3).length = min 3 card.front.data.length := by
          show (card.front.data.take 3).length = _
          exact List.length_take 3 card.front.data
        have h2 : (String.mk (List.replicate (card.front.length - 3) '*')).length =
            card.front.length - 3 := by
          show (List.replicate (card.front.length - 3) '*').length = _
          exact List.length_replicate ..
        rw [String.length_append, h1, h2]
        omega

/-- C7 witness: `getHint` on the card with front `"Hi"` and no stored
hint returns `"H*"`, obtained through `getHint_spec`. -/
theorem getHint_spec_witness : getHint cardHi = some "H*" := by
  obtain ⟨s, hs, hd, _⟩ := (getHint_spec cardHi (by decide)).2 (by decide)
  rw [hs]
  exact congrArg some (String.ext (by rw [hd]; decide))

/-- C7 counterexample: the unamended claim promises a synthesized string
hint for every flashcard with an unusable stored hint, but on a card with
empty front text the code evaluates `'*'.repeat(-1)`, which throws, so no
string is returned at all. -/
theorem getHint_empty_front_no_string : getHint cardBlankTwo = none := by decide

/-- C2 (amended): `getHint` on front `"Hi"` returns `"H*"`, and on front
`"Python Programming"` (18 characters) returns `"Pyt"` followed by 15
mask characters. -/
theorem getHint_examples :
    getHint cardHi = some "H*" ∧
    getHint cardPython = some ("Pyt" ++ String.mk (List.replicate 15 '*')) := by
  constructor
  · decide
  · decide

/-- C2 counterexample: `getHint` on front `"Python Programming"` does not
return `"Pyt"` followed by 16 mask characters, because the front has 18
characters and the code masks `18 - 3 = 15` of them. -/
theorem getHint_python_not_sixteen_stars :
    getHint cardPython ≠ some ("Pyt" ++ String.mk (List.replicate 16 '*')) := by
  decide

/-- C3: the claim that `getHint` returns a string for every flashcard,
including one with empty front text and empty hint, fails: on such a card
the code reaches `'*'.repeat(0 - 1)`, which throws a RangeError, modelled
here by `none`. -/
theorem getHint_empty_front_throws : getHint cardBlank = none := by decide

lemma mem_practiceAux (day : Nat) (c : Flashcard) (l : List (Finset Flashcard)) :
    ∀ (i : Nat) (acc : Finset Flashcard),
      c ∈ practiceAux day i l acc ↔
        c ∈ acc ∨ ∃ j, ∃ b, l[j]? = some b ∧ day % 2 ^ (i + j) = 0 ∧ c ∈ b := by
  induction l with
  | nil =>
    intro i acc
    simp [practiceAux]
  | cons b rest ih =>
    intro i acc
    rw [practiceAux, ih]
    constructor
    · rintro (hacc | ⟨j, b', hb', hday, hc⟩)
      · split at hacc
        next hcond =>
          rcases Finset.mem_union.mp hacc with hl | hr
          · exact Or.inl hl
          · exact Or.inr ⟨0, b, by simp, by simpa using hcond.2, hr⟩
        next => exact Or.inl hacc
      · refine Or.inr ⟨j + 1, b', by simpa using hb', ?_, hc⟩
        have : i + 1 + j = i + (j + 1) := by omega
        rw [← this]
        exact hday
    · rintro (hacc | ⟨j, b', hb', hday, hc⟩)
      · left
        split
        · exact Finset.mem_union_left _ hacc
        · exact hacc
      · match j, hb' with
        | 0, hb' =>
          have hbb : b = b' := by simpa using hb'
          subst hbb
          left
          rw [if_pos ⟨Finset.card_pos.mpr ⟨c, hc⟩, by simpa using hday⟩]
          exact Finset.mem_union_right _ hc
        | j' + 1, hb' =>
          refine Or.inr ⟨j', b', by simpa using hb', ?_, hc⟩
          have : i + 1 + j' = i + (j' + 1) := by omega
          rw [this]
          exact hday

/-- C4: over a dense bucket array and a day number, `practice` returns
exactly the union of the buckets whose index `i` satisfies
`day % 2 ^ i == 0`; bucket 0 is not special-cased, and since
`2 ^ 0 = 1` its cards are selected on every day. -/
theorem practice_spec (buckets : List (Finset Flashcard)) (day : Nat) (c : Flashcard) :
    (c ∈ practice buckets day ↔
      ∃ j, ∃ b, buckets[j]? = some b ∧ day % 2 ^ j = 0 ∧ c ∈ b) ∧
    (∀ b, buckets[0]? = some b → c ∈ b → c ∈ practice buckets day) := by
  have hmain := mem_practiceAux day c buckets 0 ∅
  simp only [Finset.not_mem_empty, false_or, Nat.zero_add] at hmain
  refine ⟨hmain, ?_⟩
  intro b hb hc
  exact hmain.mpr ⟨0, b, hb, by omega, hc⟩

/-- C4 witness: on day 5 a card sitting in bucket 0 is due. -/
theorem practice_spec_witness : cardQ1 ∈ practice [{cardQ1}, ∅, ∅] 5 :=
  (practice_spec [{cardQ1}, ∅, ∅] 5 cardQ1).2 {cardQ1} rfl (Finset.mem_singleton_self cardQ1)

lemma foldr_max_le (l : List Nat) (k : Nat) (hk : k ∈ l) : k ≤ l.foldr max 0 := by
  induction l with
  | nil => cases hk
  | cons a rest ih =>
    rcases List.mem_cons.mp hk with rfl | hmem
    · exact le_max_left _ _
    · exact le_trans (ih hmem) (le_max_right _ _)

lemma foldr_max_mem (l : List Nat) (hl : l ≠ []) : l.foldr max 0 ∈ l := by
  induction l with
  | nil => exact absurd rfl hl
  | cons a rest ih =>
    cases rest with
    | nil => simp [Nat.max_zero]
    | cons b rest' =>
      rcases max_choice a ((b :: rest').foldr max 0) with hmax | hmax
      · rw [List.foldr_cons, hmax]
        exact List.mem_cons_self ..
      · rw [List.foldr_cons, hmax]
        exact List.mem_cons_of_mem _ (ih (by simp))

lemma foldl_set_length (l : BucketMap) (init : List (Finset Flashcard)) :
    (l.foldl (fun arr kv => arr.set kv.1 kv.2) init).length = init.length := by
  induction l generalizing init with
  | nil => rfl
  | cons kv rest ih => rw [List.foldl_cons, ih, List.length_set]

lemma foldl_set_getElem_nomatch (l : BucketMap) (init : List (Finset Flashcard))
    (i : Nat) (h : ∀ kv ∈ l, kv.1 ≠ i) :
    (l.foldl (fun arr kv => arr.set kv.1 kv.2) init)[i]? = init[i]? := by
  induction l generalizing init with
  | nil => rfl
  | cons kv rest ih =>
    rw [List.foldl_cons, ih _ (fun kv' h' => h kv' (List.mem_cons_of_mem _ h')),
      List.getElem?_set_ne (h kv (List.mem_cons_self ..))]

lemma foldl_set_getElem_mem (l : BucketMap) (init : List (Finset Flashcard))
    (kv : Nat × Finset Flashcard) (hnd : (l.map Prod.fst).Nodup) (hkv : kv ∈ l)
    (hlt : kv.1 < init.length) :
    (l.foldl (fun arr kv => arr.set kv.1 kv.2) init)[kv.1]? = some kv.2 := by
  induction l generalizing init with
  | nil => cases hkv
  | cons a rest ih =>
    rw [List.map_cons, List.nodup_cons] at hnd
    rcases List.mem_cons.mp hkv with rfl | hmem
    · rw [List.foldl_cons, foldl_set_getElem_nomatch]
      · rw [List.getElem?_set_self hlt]
      · intro kv' h' heq'
        exact hnd.1 (heq' ▸ List.mem_map_of_mem Prod.fst h')
    · rw [List.foldl_cons]
      exact ih (init.set a.1 a.2) hnd.2 hmem (by rw [List.length_set]; exact hlt)

/-- C5: `toBucketSets` maps the empty sparse assignment to the empty
array; a non-empty assignment maps to an array of length
`maxBucketNumber + 1` — where `maxBucketNumber` bounds every present
bucket number and is itself present — in which every present bucket
number holds that bucket of the input and every absent index holds the
empty set. -/
theorem toBucketSets_spec (m : BucketMap) (hnd : (bucketKeys m).Nodup) :
    (m = [] → toBucketSets m = []) ∧
    (m ≠ [] →
      (toBucketSets m).length = maxBucketNumber m + 1 ∧
      (∀ k ∈ bucketKeys m, k ≤ maxBucketNumber m) ∧
      maxBucketNumber m ∈ bucketKeys m ∧
      (∀ kv ∈ m, (toBucketSets m)[kv.1]? = some kv.2) ∧
      (∀ i < (toBucketSets m).length, i ∉ bucketKeys m →
        (toBucketSets m)[i]? = some ∅)) := by
  constructor
  · rintro rfl
    rfl
  · intro hm
    have hlen0 : ¬(m.length = 0) := by
      simpa [List.length_eq_zero] using hm
    have hunfold : toBucketSets m =
        m.foldl (fun arr kv => arr.set kv.1 kv.2)
          (List.replicate (maxBucketNumber m + 1) (∅ : Finset Flashcard)) := by
      rw [toBucketSets, if_neg hlen0]
    have hlen : (toBucketSets m).length = maxBucketNumber m + 1 := by
      rw [hunfold, foldl_set_length, List.length_replicate]
    refine ⟨hlen, fun k hk => foldr_max_le _ k hk, ?_, ?_, ?_⟩
    · exact foldr_max_mem _ (by simpa [bucketKeys] using hm)
    · intro kv hkv
      rw [hunfold]
      refine foldl_set_getElem_mem m _ kv hnd hkv ?_
      rw [List.length_replicate]
      exact Nat.lt_succ_of_le (foldr_max_le _ kv.1 (List.mem_map_of_mem Prod.fst hkv))
    · intro i hi hik
      rw [hunfold, foldl_set_getElem_nomatch]
      · rw [hlen] at hi
        simp [List.getElem?_replicate, hi]
      · intro kv hkv heq
        exact hik (heq ▸ List.mem_map_of_mem Prod.fst hkv)

/-- C5 witness: the assignment with bucket 0 holding one card and bucket
2 holding another normalizes to a dense array of length 3. -/
theorem toBucketSets_spec_witness :
    (toBucketSets [(0, {cardQ1}), (2, {cardQ2})]).length = 3 := by
  have h := ((toBucketSets_spec [(0, {cardQ1}), (2, {cardQ2})] (by decide)).2
    (by decide)).1
  simpa using h

lemma toBucketSets_enum (l : List (Finset Flashcard)) : toBucketSets l.enum = l := by
  match l with
  | [] => rfl
  | b :: rest =>
    have hne : (b :: rest).enum.length ≠ 0 := by
      simp [List.enum_length]
    have hkeys : bucketKeys ((b :: rest).enum) = List.range (b :: rest).length := by
      simp [bucketKeys, List.enum_map_fst]
    have hL : (b :: rest).length = rest.length + 1 := by simp
    have hmax : maxBucketNumber ((b :: rest).enum) = rest.length := by
      rw [maxBucketNumber, hkeys]
      apply le_antisymm
      · have hmem := foldr_max_mem (List.range (b :: rest).length)
          (by simp [List.range_eq_nil])
        rw [List.mem_range] at hmem
        omega
      · apply foldr_max_le
        rw [List.mem_range]
        omega
    have hnd : (((b :: rest).enum).map Prod.fst).Nodup := by
      have hk : ((b :: rest).enum).map Prod.fst = List.range (b :: rest).length := hkeys
      rw [hk]
      exact List.nodup_range _
    apply List.ext_getElem?
    intro i
    have hlen : (toBucketSets (b :: rest).enum).length = rest.length + 1 := by
      rw [toBucketSets, if_neg hne, foldl_set_length, List.length_replicate, hmax]
    by_cases hi : i < (b :: rest).length
    · have hienum : (i, (b :: rest).get ⟨i, hi⟩) ∈ (b :: rest).enum := by
        rw [List.mem_enum_iff_getElem?]
        simp [List.getElem?_eq_getElem hi]
      have hset := foldl_set_getElem_mem ((b :: rest).enum)
        (List.replicate (maxBucketNumber ((b :: rest).enum) + 1) (∅ : Finset Flashcard))
        (i, (b :: rest).get ⟨i, hi⟩) hnd hienum
        (by simp only [List.length_replicate, hmax]; omega)
      have hset' : ((b :: rest).enum.foldl (fun arr kv => arr.set kv.1 kv.2)
          (List.replicate (maxBucketNumber ((b :: rest).enum) + 1)
            (∅ : Finset Flashcard)))[i]? = some ((b :: rest).get ⟨i, hi⟩) := hset
      rw [toBucketSets, if_neg hne, hset']
      simp [List.getElem?_eq_getElem hi]
    · rw [List.getElem?_eq_none (by omega), List.getElem?_eq_none (by omega)]

/-- C9: re-reading the dense output of `toBucketSets` as a sparse
assignment with one entry per index and normalizing again reproduces the
output unchanged, for every sparse assignment including the empty one. -/
theorem toBucketSets_fixed_point (m : BucketMap) :
    toBucketSets (denseToSparse (toBucketSets m)) = toBucketSets m :=
  toBucketSets_enum (toBucketSets m)

lemma foldl_sourceStep_absent (card : Flashcard) (l : BucketMap) (init : Int)
    (h : ∀ kv ∈ l, card ∉ kv.2) : l.foldl (sourceStep card) init = init := by
  induction l generalizing init with
  | nil => rfl
  | cons a rest ih =>
    rw [List.foldl_cons]
    have ha : sourceStep card init a = init := by
      rw [sourceStep, if_neg (h a (List.mem_cons_self ..))]
    rw [ha]
    exact ih init (fun kv hkv => h kv (List.mem_cons_of_mem _ hkv))

lemma foldl_sourceStep_uniq (card : Flashcard) (l : BucketMap) (s : Nat) (init : Int)
    (hmem : ∃ kv ∈ l, card ∈ kv.2)
    (huniq : ∀ kv ∈ l, card ∈ kv.2 → kv.1 = s) :
    l.foldl (sourceStep card) init = (s : Int) := by
  induction l generalizing init with
  | nil =>
    rcases hmem with ⟨kv, hkv, _⟩
    cases hkv
  | cons a rest ih =>
    rw [List.foldl_cons]
    by_cases ha : card ∈ a.2
    · have ha1 : a.1 = s := huniq a (List.mem_cons_self ..) ha
      by_cases hr : ∃ kv ∈ rest, card ∈ kv.2
      · exact ih _ hr (fun kv hkv hc => huniq kv (List.mem_cons_of_mem _ hkv) hc)
      · push_neg at hr
        rw [foldl_sourceStep_absent card rest _ hr, sourceStep, if_pos ha, ha1]
    · rcases hmem with ⟨kv, hkv, hc⟩
      rcases List.mem_cons.mp hkv with rfl | hkv'
      · exact absurd hc ha
      · exact ih _ ⟨kv, hkv', hc⟩ (fun kv hkv hc => huniq kv (List.mem_cons_of_mem _ hkv) hc)

lemma foldl_sourceStep_ge (card : Flashcard) (l : BucketMap) (init : Int)
    (h : -1 ≤ init) : -1 ≤ l.foldl (sourceStep card) init := by
  induction l generalizing init with
  | nil => exact h
  | cons a rest ih =>
    rw [List.foldl_cons]
    refine ih _ ?_
    rw [sourceStep]
    split
    · omega
    · exact h

lemma sourceBucketNum_ge (m : BucketMap) (card : Flashcard) :
    -1 ≤ sourceBucketNum m card :=
  foldl_sourceStep_ge card m (-1) le_rfl

lemma targetBucketNum_nonneg (d : AnswerDifficulty) (cur : Int) (h : -1 ≤ cur) :
    0 ≤ targetBucketNum d cur := by
  cases d <;> simp [targetBucketNum] <;> omega

lemma targetBucketNum_le_seven (d : AnswerDifficulty) (cur : Int) :
    targetBucketNum d cur ≤ 7 := by
  cases d <;> simp [targetBucketNum]

lemma bucketKeys_removeCard (m : BucketMap) (card : Flashcard) :
    bucketKeys (removeCard m card) = bucketKeys m := by
  rw [bucketKeys, removeCard, List.map_map, bucketKeys]
  refine List.map_congr_left ?_
  intro kv _
  by_cases h : card ∈ kv.2 <;> simp [h]

lemma removeCard_not_mem (m : BucketMap) (card : Flashcard) :
    ∀ kv ∈ removeCard m card, card ∉ kv.2 := by
  intro kv hkv
  rcases List.mem_map.mp hkv with ⟨kv', _, rfl⟩
  by_cases h : card ∈ kv'.2
  · simp only [if_pos h]
    exact Finset.not_mem_erase card kv'.2
  · simp only [if_neg h]
    exact h

lemma ensureBucket_key_mem (m : BucketMap) (k : Nat) :
    k ∈ bucketKeys (ensureBucket m k) := by
  rw [ensureBucket]
  split
  next h => exact List.elem_iff.mp h
  next h => simp [bucketKeys]

lemma ensureBucket_mem (m : BucketMap) (k : Nat) :
    ∀ kv ∈ ensureBucket m k, kv ∈ m ∨ kv = (k, (∅ : Finset Flashcard)) := by
  intro kv hkv
  rw [ensureBucket] at hkv
  split at hkv
  · exact Or.inl hkv
  · rcases List.mem_append.mp hkv with h | h
    · exact Or.inl h
    · exact Or.inr (List.mem_singleton.mp h)

lemma ensureBucket_keys_sup (m : BucketMap) (k : Nat) :
    ∀ j ∈ bucketKeys m, j ∈ bucketKeys (ensureBucket m k) := by
  intro j hj
  rw [ensureBucket]
  split
  · exact hj
  · simp only [bucketKeys, List.map_append, List.mem_append]
    exact Or.inl hj

lemma ensureBucket_keys_cases (m : BucketMap) (k : Nat) :
    ∀ j ∈ bucketKeys (ensureBucket m k), j ∈ bucketKeys m ∨ j = k := by
  intro j hj
  rw [ensureBucket] at hj
  split at hj
  · exact Or.inl hj
  · simp only [bucketKeys, List.map_append, List.mem_append] at hj
    rcases hj with h | h
    · exact Or.inl h
    · simp only [List.map_cons, List.map_nil, List.mem_singleton] at h
      exact Or.inr h

lemma bucketKeys_addToBucket (m : BucketMap) (k : Nat) (card : Flashcard) :
    bucketKeys (addToBucket m k card) = bucketKeys m := by
  rw [bucketKeys, addToBucket, List.map_map, bucketKeys]
  refine List.map_congr_left ?_
  intro kv _
  by_cases h : kv.1 = k <;> simp [h]

lemma addToBucket_inBucket (m : BucketMap) (k : Nat) (card : Flashcard)
    (h : k ∈ bucketKeys m) : inBucket (addToBucket m k card) card k := by
  rcases List.mem_map.mp h with ⟨kv, hkv, hk⟩
  refine ⟨(kv.1, insert card kv.2), ?_, hk, Finset.mem_insert_self card kv.2⟩
  have himg : (if kv.1 = k then (kv.1, insert card kv.2) else kv) =
      (kv.1, insert card kv.2) := if_pos hk
  exact himg ▸ List.mem_map_of_mem _ hkv

lemma addToBucket_preserve (m : BucketMap) (k : Nat) (card : Flashcard) :
    ∀ kv ∈ addToBucket m k card, kv.1 ≠ k → kv ∈ m := by
  intro kv hkv hne
  rcases List.mem_map.mp hkv with ⟨kv', hkv', rfl⟩
  by_cases h : kv'.1 = k
  · rw [if_pos h] at hne ⊢
    exact absurd h hne
  · rw [if_neg h]
    exact hkv'

lemma update_target_mem (m : BucketMap) (card : Flashcard) (d : AnswerDifficulty) :
    inBucket (update m card d) card
      ((targetBucketNum d (sourceBucketNum m card)).toNat) :=
  addToBucket_inBucket _ _ _ (ensureBucket_key_mem _ _)

lemma update_only_target (m : BucketMap) (card : Flashcard) (d : AnswerDifficulty) :
    ∀ kv ∈ update m card d, card ∈ kv.2 →
      kv.1 = (targetBucketNum d (sourceBucketNum m card)).toNat := by
  intro kv hkv hc
  by_contra hne
  have hkv' : kv ∈ ensureBucket (removeCard m card)
      ((targetBucketNum d (sourceBucketNum m card)).toNat) :=
    addToBucket_preserve _ _ _ kv hkv hne
  rcases ensureBucket_mem _ _ kv hkv' with h | rfl
  · exact removeCard_not_mem _ _ kv h hc
  · exact absurd hc (Finset.not_mem_empty card)

lemma update_keys_cases (m : BucketMap) (card : Flashcard) (d : AnswerDifficulty) :
    ∀ k ∈ bucketKeys (update m card d),
      k ∈ bucketKeys m ∨ k = (targetBucketNum d (sourceBucketNum m card)).toNat := by
  intro k hk
  rw [update, bucketKeys_addToBucket] at hk
  rcases ensureBucket_keys_cases _ _ k hk with h | h
  · rw [bucketKeys_removeCard] at h
    exact Or.inl h
  · exact Or.inr h

lemma update_keys_sup (m : BucketMap) (card : Flashcard) (d : AnswerDifficulty) :
    ∀ k ∈ bucketKeys m, k ∈ bucketKeys (update m card d) := by
  intro k hk
  rw [update, bucketKeys_addToBucket]
  exact ensureBucket_keys_sup _ _ k (by rw [bucketKeys_removeCard]; exact hk)

lemma inBucket_key_mem (m : BucketMap) (card : Flashcard) (k : Nat)
    (h : inBucket m card k) : k ∈ bucketKeys m := by
  rcases h with ⟨kv, hkv, hk, _⟩
  exact hk ▸ List.mem_map_of_mem Prod.fst hkv

/-- C1: when the card sits in exactly one bucket, with bucket number `s`
at most 7, `update` places it in bucket `min(s + 2, 7)` for Easy,
`min(s + 1, 7)` for Hard and `0` for Wrong, and every bucket number of
the result either existed before or is at most 7, so bucket 8 is never
created. -/
theorem update_moves_card (m : BucketMap) (card : Flashcard) (s : Nat)
    (hmem : inBucket m card s)
    (huniq : ∀ kv ∈ m, card ∈ kv.2 → kv.1 = s)
    (hs : s ≤ 7) :
    inBucket (update m card AnswerDifficulty.Easy) card (min (s + 2) 7) ∧
    inBucket (update m card AnswerDifficulty.Hard) card (min (s + 1) 7) ∧
    inBucket (update m card AnswerDifficulty.Wrong) card 0 ∧
    ∀ d : AnswerDifficulty, ∀ k ∈ bucketKeys (update m card d),
      k ∈ bucketKeys m ∨ k ≤ 7 := by
  have hsrc : sourceBucketNum m card = (s : Int) := by
    rcases hmem with ⟨kv, hkv, hk, hc⟩
    exact foldl_sourceStep_uniq card m s (-1) ⟨kv, hkv, hc⟩ huniq
  refine ⟨?_, ?_, ?_, ?_⟩
  · have h := update_target_mem m card AnswerDifficulty.Easy
    rw [hsrc] at h
    have ht : (targetBucketNum AnswerDifficulty.Easy (s : Int)).toNat = min (s + 2) 7 := by
      rw [targetBucketNum]
      omega
    rwa [ht] at h
  · have h := update_target_mem m card AnswerDifficulty.Hard
    rw [hsrc] at h
    have ht : (targetBucketNum AnswerDifficulty.Hard (s : Int)).toNat = min (s + 1) 7 := by
      rw [targetBucketNum]
      omega
    rwa [ht] at h
  · have h := update_target_mem m card AnswerDifficulty.Wrong
    rw [hsrc] at h
    have ht : (targetBucketNum AnswerDifficulty.Wrong (s : Int)).toNat = 0 := rfl
    rwa [ht] at h
  · intro d k hk
    rcases update_keys_cases m card d k hk with h | h
    · exact Or.inl h
    · refine Or.inr ?_
      rw [h]
      have := targetBucketNum_le_seven d (sourceBucketNum m card)
      omega

/-- C1 witness: a card in bucket 6 answered Easy lands in bucket 7. -/
theorem update_moves_card_witness :
    inBucket (update [(6, {cardQ1})] cardQ1 AnswerDifficulty.Easy) cardQ1 7 := by
  have h := (update_moves_card [(6, {cardQ1})] cardQ1 6
    ⟨(6, {cardQ1}), List.mem_singleton.mpr rfl, rfl, Finset.mem_singleton_self cardQ1⟩
    (by decide) (by omega)).1
  simpa using h

/-- C6: under bucket numbers all at most 7 and the card in exactly one
bucket, after `update` the card occupies exactly one bucket, every
bucket number of the result is at most 7, the Int-level destination
bucket is non-negative, and the source bucket number is still present. -/
theorem update_invariants (m : BucketMap) (card : Flashcard) (s : Nat)
    (hkeys : ∀ k ∈ bucketKeys m, k ≤ 7)
    (hmem : inBucket m card s)
    (huniq : ∀ kv ∈ m, card ∈ kv.2 → kv.1 = s)
    (d : AnswerDifficulty) :
    (∃ t, inBucket (update m card d) card t ∧
      ∀ kv ∈ update m card d, card ∈ kv.2 → kv.1 = t) ∧
    (∀ k ∈ bucketKeys (update m card d), k ≤ 7) ∧
    0 ≤ targetBucketNum d (sourceBucketNum m card) ∧
    s ∈ bucketKeys (update m card d) := by
  refine ⟨⟨(targetBucketNum d (sourceBucketNum m card)).toNat,
    update_target_mem m card d, update_only_target m card d⟩, ?_, ?_, ?_⟩
  · intro k hk
    rcases update_keys_cases m card d k hk with h | h
    · exact hkeys k h
    · rw [h]
      have := targetBucketNum_le_seven d (sourceBucketNum m card)
      omega
  · exact targetBucketNum_nonneg d _ (sourceBucketNum_ge m card)
  · exact update_keys_sup m card d s (inBucket_key_mem m card s hmem)

/-- C6 witness: updating a card in bucket 6 with Easy keeps bucket 6
present in the result. -/
theorem update_invariants_witness :
    6 ∈ bucketKeys (update [(6, {cardQ2})] cardQ2 AnswerDifficulty.Easy) :=
  (update_invariants [(6, {cardQ2})] cardQ2 6 (by decide)
    ⟨(6, {cardQ2}), List.mem_singleton.mpr rfl, rfl, Finset.mem_singleton_self cardQ2⟩
    (by
      intro kv hkv hc
      rcases List.mem_singleton.mp hkv with rfl
      rfl)
    AnswerDifficulty.Easy).2.2.2

/-- C10: when the card is absent from every bucket, the sentinel source
bucket is `-1`, so Easy inserts the card into bucket 1 while Hard and
Wrong insert it into bucket 0; in each case the card ends up in exactly
that one bucket. -/
theorem update_absent_card (m : BucketMap) (card : Flashcard)
    (habs : ∀ kv ∈ m, card ∉ kv.2) :
    sourceBucketNum m card = -1 ∧
    (inBucket (update m card AnswerDifficulty.Easy) card 1 ∧
      ∀ kv ∈ update m card AnswerDifficulty.Easy, card ∈ kv.2 → kv.1 = 1) ∧
    (inBucket (update m card AnswerDifficulty.Hard) card 0 ∧
      ∀ kv ∈ update m card AnswerDifficulty.Hard, card ∈ kv.2 → kv.1 = 0) ∧
    (inBucket (update m card AnswerDifficulty.Wrong) card 0 ∧
      ∀ kv ∈ update m card AnswerDifficulty.Wrong, card ∈ kv.2 → kv.1 = 0) := by
  have hsrc : sourceBucketNum m card = -1 :=
    foldl_sourceStep_absent card m (-1) habs
  have hEasy : (targetBucketNum AnswerDifficulty.Easy (sourceBucketNum m card)).toNat = 1 := by
    rw [hsrc, targetBucketNum]
    omega
  have hHard : (targetBucketNum AnswerDifficulty.Hard (sourceBucketNum m card)).toNat = 0 := by
    rw [hsrc, targetBucketNum]
    omega
  have hWrong : (targetBucketNum AnswerDifficulty.Wrong (sourceBucketNum m card)).toNat = 0 := by
    rw [hsrc, targetBucketNum]
    omega
  refine ⟨hsrc, ⟨?_, ?_⟩, ⟨?_, ?_⟩, ⟨?_, ?_⟩⟩
  · exact hEasy ▸ update_target_mem m card AnswerDifficulty.Easy
  · exact hEasy ▸ update_only_target m card AnswerDifficulty.Easy
  · exact hHard ▸ update_target_mem m card AnswerDifficulty.Hard
  · exact hHard ▸ update_only_target m card AnswerDifficulty.Hard
  · exact hWrong ▸ update_target_mem m card AnswerDifficulty.Wrong
  · exact hWrong ▸ update_only_target m card AnswerDifficulty.Wrong

/-- C10 witness: updating a card absent from the empty assignment with
Easy inserts it into bucket 1. -/
theorem update_absent_card_witness :
    inBucket (update [] cardQ1 AnswerDifficulty.Easy) cardQ1 1 :=
  (update_absent_card [] cardQ1 (by simp)).2.1.1

lemma foldl_add_card (m : BucketMap) (init : Nat) :
    m.foldl (fun t kv => t + kv.2.card) init =
      init + (m.map (fun kv => kv.2.card)).sum := by
  induction m generalizing init with
  | nil => simp
  | cons a rest ih =>
    rw [List.foldl_cons, ih, List.map_cons, List.sum_cons]
    omega

lemma foldl_count_filter (p : Nat × Finset Flashcard → Prop) [DecidablePred p]
    (m : BucketMap) (init : Nat) :
    m.foldl (fun t kv => if p kv then t + kv.2.card else t) init =
      init + ((m.filter (fun kv => decide (p kv))).map (fun kv => kv.2.card)).sum := by
  induction m generalizing init with
  | nil => simp
  | cons a rest ih =>
    rw [List.foldl_cons, ih]
    by_cases h : p a <;> simp [List.filter_cons, h] <;> omega

lemma countInRange_eq_filter_sum (m : BucketMap) (lo hi : Nat) :
    countInRange m lo hi =
      ((m.filter (fun kv => decide (lo ≤ kv.1 ∧ kv.1 ≤ hi))).map
        (fun kv => kv.2.card)).sum := by
  rw [countInRange, foldl_count_filter (fun kv => lo ≤ kv.1 ∧ kv.1 ≤ hi) m 0]
  omega

/-- C8: `computeProgress` reports the total number of cards across all
buckets, a breakdown over exactly the stages Beginner (buckets 0 to 1),
Intermediate (buckets 2 to 4) and Advanced (buckets 5 to 7) whose counts
sum the sizes of the buckets in each range, with each percentage equal to
the count as a share of the total and 0 when the total is 0; the result
does not depend on the supplied history. -/
theorem computeProgress_spec (m : BucketMap)
    (hist hist2 : List (Flashcard × List AnswerDifficulty)) :
    (computeProgress m hist).totalCards = (m.map (fun kv => kv.2.card)).sum ∧
    (computeProgress m hist).stageBreakdown.map (fun st => st.stage) =
      ["Beginner", "Intermediate", "Advanced"] ∧
    (computeProgress m hist).stageBreakdown.map (fun st => st.cardCount) =
      [((m.filter (fun kv => decide (kv.1 ≤ 1))).map (fun kv => kv.2.card)).sum,
       ((m.filter (fun kv => decide (2 ≤ kv.1 ∧ kv.1 ≤ 4))).map (fun kv => kv.2.card)).sum,
       ((m.filter (fun kv => decide (5 ≤ kv.1 ∧ kv.1 ≤ 7))).map (fun kv => kv.2.card)).sum] ∧
    (∀ st ∈ (computeProgress m hist).stageBreakdown,
      st.percentage =
        if 0 < (computeProgress m hist).totalCards then
          ((st.cardCount : ℚ) / ((computeProgress m hist).totalCards : ℚ)) * 100
        else 0) ∧
    computeProgress m hist = computeProgress m hist2 := by
  refine ⟨?_, ?_, ?_, ?_, rfl⟩
  · show m.foldl (fun t kv => t + kv.2.card) 0 = _
    rw [foldl_add_card m 0]
    omega
  · rfl
  · show [countInRange m 0 1, countInRange m 2 4, countInRange m 5 7] = _
    rw [countInRange_eq_filter_sum, countInRange_eq_filter_sum, countInRange_eq_filter_sum]
    have hfix : ∀ kv ∈ m, (decide (0 ≤ kv.1 ∧ kv.1 ≤ 1)) = (decide (kv.1 ≤ 1)) := by
      intro kv _
      simp
    rw [List.filter_congr hfix]
  · intro st hst
    have hcases : st ∈ stageDefs.map (fun sd =>
        { stage := sd.1
          cardCount := countInRange m sd.2.1 sd.2.2
          percentage :=
            if 0 < m.foldl (fun t kv => t + kv.2.card) 0 then
              ((countInRange m sd.2.1 sd.2.2 : ℚ) /
                ((m.foldl (fun t kv => t + kv.2.card) 0 : Nat) : ℚ)) * 100
            else 0 : StageProgress }) := hst
    simp only [stageDefs, List.map_cons, List.map_nil, List.mem_cons,
      List.not_mem_nil, or_false] at hcases
    rcases hcases with rfl | rfl | rfl <;> rfl

/-- C8 witness: on the empty assignment the Beginner stage reports
percentage 0, through the division guard. -/
theorem computeProgress_spec_witness :
    (⟨"Beginner", 0, 0⟩ : StageProgress).percentage =
      (if 0 < (computeProgress ([] : BucketMap) []).totalCards then
        (((⟨"Beginner", 0, 0⟩ : StageProgress).cardCount : ℚ) /
          (((computeProgress ([] : BucketMap) []).totalCards : Nat) : ℚ)) * 100
      else 0) :=
  (computeProgress_spec [] [] []).2.2.2.1 ⟨"Beginner", 0, 0⟩ (by decide)

end FlashcardSystem
